import Mathlib

/-!
Shallow embedding of the igwas core (src/stats/running.rs and src/util.rs).

Floating-point (`f32`) arithmetic is idealized over `ℝ`, with `f32::sqrt`
rendered as `Real.sqrt`; `i32` sample sizes are rendered as `ℤ`.  nalgebra
matrices/vectors are rendered as index functions `ℕ → ℕ → ℝ` / `ℕ → ℝ`
together with the explicit dimension fields the source keeps (`chunksize`,
`n_features`, `n_projections`); `DMatrix::reshape_generic` to a column
vector reads out the column-major storage, i.e. flattened index `k` maps to
entry `(k % nrows, k / nrows)`.  A Rust `panic!`/`assert!`/`unwrap` is
rendered as the `Except.error` case; for `RunningSufficientStats::update`,
whose panic fires after a field has already been assigned, the error value
carries the state as mutated up to the point of the panic.  The p-value
collaborator `compute_neg_log_pvalue` (not part of the analyzed sources) is
a function parameter `pfn`, and the file-stem collaborator used by
`gwas_path_to_phenotype` is a function parameter `p2p`.
-/

namespace Igwas

/-- One phenotype's contribution for one window (io::gwas::IntermediateResults):
variant identifiers, per-variant sample sizes, and the partial beta / variance
updates. -/
structure IntermediateResults where
  variant_ids : List String
  sample_sizes : ℕ → ℤ
  beta_update : ℕ → ℕ → ℝ
  gpv_update : ℕ → ℝ

/-- Finalized per-window results (io::gwas::IGwasResults), flattened. -/
structure IGwasResults where
  projection_ids : List String
  variant_ids : List String
  beta_values : ℕ → ℝ
  se_values : ℕ → ℝ
  t_stat_values : ℕ → ℝ
  p_values : ℕ → ℝ
  sample_sizes : ℕ → ℤ

/-- The aggregator state (stats::running::RunningSufficientStats). -/
@[ext]
structure RunningSufficientStats where
  beta : ℕ → ℕ → ℝ
  gpv : ℕ → ℝ
  sample_sizes : ℕ → ℤ
  cov : ℕ → ℕ → ℝ
  fpv : ℕ → ℝ
  proj : ℕ → ℕ → ℝ
  n_covar : ℕ
  chunksize : ℕ
  n_features : ℕ
  n_projections : ℕ
  phenotype_id_to_idx : List (String × ℕ)
  variant_ids : Option (List String)
  projection_ids : List String
  n_features_seen : ℕ

/-- A labeled matrix (io::matrix::LabeledMatrix) with explicit dimensions. -/
structure LabeledMatrix where
  matrix : ℕ → ℕ → ℝ
  nrows : ℕ
  ncols : ℕ
  row_labels : List String
  col_labels : List String

/-- Matrix transpose on index functions. -/
def transpose (A : ℕ → ℕ → ℝ) : ℕ → ℕ → ℝ := fun i j => A j i

/-- Matrix product on index functions; `inner` is the shared dimension. -/
noncomputable def matMul (A B : ℕ → ℕ → ℝ) (inner : ℕ) : ℕ → ℕ → ℝ :=
  fun i j => ∑ k ∈ Finset.range inner, A i k * B k j

/-- RunningSufficientStats::new — checks the covariance shape against the
projection row count, captures the covariance diagonal as `fpv`, builds the
phenotype-name enumeration, and allocates zeroed window buffers. -/
def RunningSufficientStats.new (proj cov : LabeledMatrix) (n_covar chunksize : ℕ) :
    Except String RunningSufficientStats :=
  let n_features := proj.nrows
  let n_projections := proj.ncols
  if cov.nrows ≠ n_features then .error "Covariance matrix has wrong shape"
  else if cov.ncols ≠ n_features then .error "Covariance matrix has wrong shape"
  else .ok
    { beta := fun _ _ => 0
      gpv := fun _ => 0
      sample_sizes := fun _ => 0
      cov := cov.matrix
      fpv := fun i => cov.matrix i i
      proj := proj.matrix
      n_covar := n_covar
      chunksize := chunksize
      n_features := n_features
      n_projections := n_projections
      phenotype_id_to_idx := proj.row_labels.enum.map (fun p => (p.2, p.1))
      variant_ids := none
      projection_ids := proj.col_labels
      n_features_seen := 0 }

/-- RunningSufficientStats::clear_chunk — zeroes the window buffers
(reallocating when the size changes, plain `fill` otherwise) and resets the
seen counter.  Note the source leaves `variant_ids` untouched. -/
def clear_chunk (st : RunningSufficientStats) (new_chunksize : ℕ) :
    RunningSufficientStats :=
  if new_chunksize ≠ st.chunksize then
    { st with
      beta := fun _ _ => 0
      gpv := fun _ => 0
      sample_sizes := fun _ => 0
      chunksize := new_chunksize
      n_features_seen := 0 }
  else
    { st with
      beta := fun _ _ => 0
      gpv := fun _ => 0
      sample_sizes := fun _ => 0
      n_features_seen := 0 }

/-- RunningSufficientStats::update — first contribution adopts the sample
sizes and variant ids; later contributions first take the elementwise minimum
of sample sizes, then assert the variant ids match (panicking otherwise: the
`Except.error` value is the state at the panic, sample sizes already
updated), then add the beta / gpv contributions and bump the seen counter. -/
noncomputable def update (st : RunningSufficientStats) (g : IntermediateResults) :
    Except RunningSufficientStats RunningSufficientStats :=
  if st.n_features_seen = 0 then
    .ok { st with
      sample_sizes := g.sample_sizes
      variant_ids := some g.variant_ids
      beta := fun i j => st.beta i j + g.beta_update i j
      gpv := fun i => st.gpv i + g.gpv_update i
      n_features_seen := st.n_features_seen + 1 }
  else
    let new_sample_sizes := fun i => min (st.sample_sizes i) (g.sample_sizes i)
    if st.variant_ids = some g.variant_ids then
      .ok { st with
        sample_sizes := new_sample_sizes
        beta := fun i j => st.beta i j + g.beta_update i j
        gpv := fun i => st.gpv i + g.gpv_update i
        n_features_seen := st.n_features_seen + 1 }
    else
      .error { st with sample_sizes := new_sample_sizes }

/-- Sequential application of a list of updates, stopping at the first
panic (carrying the state at the panic). -/
noncomputable def applyAll :
    RunningSufficientStats → List IntermediateResults →
      Except RunningSufficientStats RunningSufficientStats
  | st, [] => .ok st
  | st, c :: l =>
    match update st c with
    | .ok st1 => applyAll st1 l
    | .error e => .error e

/-- The two ways compute_final_stats can panic. -/
inductive FinalizeError where
  | incompleteAggregation : FinalizeError
  | missingVariantIds : FinalizeError
deriving DecidableEq

/-- Per-variant degrees of freedom, `sample_sizes.map(|x| x - 2 - n_covar as i32)`. -/
def dofOf (st : RunningSufficientStats) : ℕ → ℤ :=
  fun i => st.sample_sizes i - 2 - (st.n_covar : ℤ)

/-- Projected phenotype variance, the diagonal of `projᵗ · cov · proj`. -/
noncomputable def ppvOf (st : RunningSufficientStats) : ℕ → ℝ :=
  fun j => matMul (matMul (transpose st.proj) st.cov st.n_features) st.proj st.n_features j j

/-- RunningSufficientStats::compute_final_stats — panics when the seen counter
differs from the feature count; divides the gpv accumulator (in place, so the
returned state keeps the divided value) by the seen counter; computes dof,
ppv, se, t and p; unwraps the stored variant ids (panicking when absent); and
flattens everything column-major (projection-major, variant-minor),
replicating variant ids and sample sizes per projection and projection ids
per variant. -/
noncomputable def compute_final_stats (pfn : ℝ → ℤ → ℝ) (st : RunningSufficientStats) :
    Except FinalizeError (IGwasResults × RunningSufficientStats) :=
  if st.n_features_seen ≠ st.n_features then .error .incompleteAggregation
  else
    match st.variant_ids with
    | none => .error .missingVariantIds
    | some existing_variant_ids =>
      let gpv := fun i => st.gpv i / (st.n_features_seen : ℝ)
      let dof := dofOf st
      let ppv := ppvOf st
      let se := fun i j => Real.sqrt ((ppv j / gpv i - st.beta i j ^ 2) / (dof i : ℝ))
      let t_stat := fun i j => st.beta i j / se i j
      let p_values := fun i j => pfn (t_stat i j) (dof i)
      let variant_ids := (List.replicate st.n_projections existing_variant_ids).flatten
      let sample_sizes := fun k => st.sample_sizes (k % st.chunksize)
      let projection_ids := st.projection_ids.flatMap (fun x => List.replicate st.chunksize x)
      .ok
        ({ projection_ids := projection_ids
           variant_ids := variant_ids
           beta_values := fun k => st.beta (k % st.chunksize) (k / st.chunksize)
           se_values := fun k => se (k % st.chunksize) (k / st.chunksize)
           t_stat_values := fun k => t_stat (k % st.chunksize) (k / st.chunksize)
           p_values := fun k => p_values (k % st.chunksize) (k / st.chunksize)
           sample_sizes := sample_sizes },
         { st with gpv := gpv })

/-- util::check_filter_inputs, first phase: build the phenotype → path map,
failing when two files share a phenotype name (`p2p` renders
`gwas_path_to_phenotype`, the file-stem collaborator). -/
def build_phenotype_map (p2p : String → String) :
    List String → List (String × String) → Except String (List (String × String))
  | [], m => .ok m
  | gwas_path :: rest, m =>
    let phenotype := p2p gwas_path
    if (m.lookup phenotype).isSome then
      .error "Multiple GWAS files provided for phenotype"
    else
      build_phenotype_map p2p rest (m ++ [(phenotype, gwas_path)])

/-- util::check_filter_inputs, second phase: for each projection label in
order, remove its path from the map (failing when absent); paths for
phenotypes that are not projection labels are simply left behind. -/
def extract_paths :
    List String → List (String × String) → Except String (List String)
  | [], _ => .ok []
  | phenotype :: rest, m =>
    match m.lookup phenotype with
    | none => .error "No GWAS result file provided for phenotype"
    | some path =>
      match extract_paths rest (m.filter (fun p => p.1 != phenotype)) with
      | .error e => .error e
      | .ok paths => .ok (path :: paths)

/-- util::check_filter_inputs — label-sequence equality check, duplicate
check, then per-label extraction. -/
def check_filter_inputs (p2p : String → String)
    (projection_labels covariance_labels gwas_result_files : List String) :
    Except String (List String) :=
  if projection_labels ≠ covariance_labels then
    .error "Projection and covariance matrices have different labels"
  else
    match build_phenotype_map p2p gwas_result_files [] with
    | .error e => .error e
    | .ok m => extract_paths projection_labels m

/-- The window loop of util::run.  `read s e` stands for the chunks the
reader produces for lines `[s, e)`, one per (filtered) phenotype file, which
the workers apply to the aggregator; each iteration clears the window,
applies the updates, finalizes, and records the written results together
with the `include_header` flag (`start_line == 0`).  Any panic or error
aborts the run (`none`).  The loop advances `start_line` to `end_line`, so
with a positive chunksize `num_lines` iterations of fuel always suffice. -/
noncomputable def runLoopAux (pfn : ℝ → ℤ → ℝ)
    (read : ℕ → ℕ → List IntermediateResults) (num_lines chunksize : ℕ) :
    ℕ → ℕ → ℕ → RunningSufficientStats →
      Option (List (IGwasResults × Bool) × RunningSufficientStats)
  | 0, start_line, _, st =>
    if start_line < num_lines then none else some ([], st)
  | fuel + 1, start_line, end_line, st =>
    if start_line < num_lines then
      let e := min num_lines (end_line + chunksize)
      let st1 := clear_chunk st (e - start_line)
      match applyAll st1 (read start_line e) with
      | .error _ => none
      | .ok st2 =>
        match compute_final_stats pfn st2 with
        | .error _ => none
        | .ok (r, st3) =>
          match runLoopAux pfn read num_lines chunksize fuel e e st3 with
          | none => none
          | some (evs, st4) => some ((r, start_line = 0) :: evs, st4)
    else some ([], st)

/-- util::run after the two matrices have been read: reconcile the input
files, construct the aggregator, run the window loop, then perform the one
trailing compute_final_stats + write (with `include_header = false`) on
whatever state the loop left behind.  The returned list is the sequence of
(results, include_header) writes issued to the output sink. -/
noncomputable def run (pfn : ℝ → ℤ → ℝ) (p2p : String → String)
    (projection_matrix cov_matrix : LabeledMatrix)
    (gwas_result_files : List String)
    (read : ℕ → ℕ → List IntermediateResults)
    (num_lines n_covar chunksize : ℕ) :
    Option (List (IGwasResults × Bool)) :=
  match check_filter_inputs p2p projection_matrix.row_labels cov_matrix.col_labels
      gwas_result_files with
  | .error _ => none
  | .ok _final_paths =>
    match RunningSufficientStats.new projection_matrix cov_matrix n_covar chunksize with
    | .error _ => none
    | .ok st0 =>
      match runLoopAux pfn read num_lines chunksize num_lines 0 0 st0 with
      | none => none
      | some (evs, stL) =>
        match compute_final_stats pfn stL with
        | .error _ => none
        | .ok (r, _) => some (evs ++ [(r, false)])

/-! Concrete inputs used by witnesses and counterexamples. -/

/-- A stand-in for the p-value collaborator: the identity in the t-statistic. -/
noncomputable def pfn0 : ℝ → ℤ → ℝ := fun t _ => t

/-- A completed window: 1 variant, 1 projection, 2 features both seen,
identity covariance, all-ones projection, accumulated beta 1, accumulated
gpv 2, sample size 3, no covariates. -/
noncomputable def exSt : RunningSufficientStats where
  beta := fun _ _ => 1
  gpv := fun _ => 2
  sample_sizes := fun _ => 3
  cov := fun i j => if i = j then 1 else 0
  fpv := fun _ => 1
  proj := fun _ _ => 1
  n_covar := 0
  chunksize := 1
  n_features := 2
  n_projections := 1
  phenotype_id_to_idx := [("a", 0), ("b", 1)]
  variant_ids := some ["v"]
  projection_ids := ["p"]
  n_features_seen := 2

/-- `exSt` with an empty window: nothing seen, nothing accumulated. -/
noncomputable def exFresh : RunningSufficientStats :=
  { exSt with
    beta := fun _ _ => 0
    gpv := fun _ => 0
    sample_sizes := fun _ => 0
    variant_ids := none
    n_features_seen := 0 }

/-- A first phenotype contribution for the window of `exFresh`. -/
noncomputable def exChunkA : IntermediateResults where
  variant_ids := ["v"]
  sample_sizes := fun _ => 5
  beta_update := fun _ _ => 1
  gpv_update := fun _ => 1

/-- A second phenotype contribution, same variant ids, smaller sample size. -/
noncomputable def exChunkB : IntermediateResults where
  variant_ids := ["v"]
  sample_sizes := fun _ => 3
  beta_update := fun _ _ => 2
  gpv_update := fun _ => 1

/-- A contribution whose variant ids disagree with the canonical `["v"]`. -/
noncomputable def exChunkBad : IntermediateResults where
  variant_ids := ["w"]
  sample_sizes := fun _ => 2
  beta_update := fun _ _ => 7
  gpv_update := fun _ => 7

/-- The state `update` leaves behind when `exChunkBad` hits the canonical
ids of `exSt`: the sample sizes have already been replaced by the
elementwise minimum when the assertion fires. -/
noncomputable def exErrSt : RunningSufficientStats :=
  { exSt with
    sample_sizes := fun i => min (exSt.sample_sizes i) (exChunkBad.sample_sizes i) }

/-- A degenerate aggregator over zero phenotypes: the seen counter (0)
equals the feature count (0), yet no variant ids were ever captured. -/
noncomputable def exC5St : RunningSufficientStats :=
  { exSt with n_features := 0, n_features_seen := 0, variant_ids := none }

/-- 1x1 projection matrix for the pipeline example. -/
noncomputable def exProjM : LabeledMatrix where
  matrix := fun _ _ => 1
  nrows := 1
  ncols := 1
  row_labels := ["a"]
  col_labels := ["p"]

/-- 1x1 covariance matrix for the pipeline example. -/
noncomputable def exCovM : LabeledMatrix where
  matrix := fun _ _ => 1
  nrows := 1
  ncols := 1
  row_labels := ["a"]
  col_labels := ["a"]

/-- The single chunk the reader yields in the pipeline example. -/
noncomputable def exChunkRun : IntermediateResults where
  variant_ids := ["v"]
  sample_sizes := fun _ => 3
  beta_update := fun _ _ => 1
  gpv_update := fun _ => 1

/-- The reader collaborator for the pipeline example. -/
noncomputable def exRead : ℕ → ℕ → List IntermediateResults := fun _ _ => [exChunkRun]

/-- The sequence of writes the pipeline example issues. -/
noncomputable def exRunEvs : List (IGwasResults × Bool) :=
  (run pfn0 (fun s => s) exProjM exCovM ["a"] exRead 1 0 1).getD []

/-- The state a successful `update` produces (both branches). -/
noncomputable def updateOk (st : RunningSufficientStats) (g : IntermediateResults) :
    RunningSufficientStats :=
  if st.n_features_seen = 0 then
    { st with
      sample_sizes := g.sample_sizes
      variant_ids := some g.variant_ids
      beta := fun i j => st.beta i j + g.beta_update i j
      gpv := fun i => st.gpv i + g.gpv_update i
      n_features_seen := st.n_features_seen + 1 }
  else
    { st with
      sample_sizes := fun i => min (st.sample_sizes i) (g.sample_sizes i)
      beta := fun i j => st.beta i j + g.beta_update i j
      gpv := fun i => st.gpv i + g.gpv_update i
      n_features_seen := st.n_features_seen + 1 }

/-- The accumulated state after applying `exChunkA` then `exChunkB` to the
fresh window. -/
noncomputable def exAccSt : RunningSufficientStats :=
  (applyAll exFresh [exChunkA, exChunkB]).toOption.getD exFresh

/-- The accumulated state after applying the same two chunks in the other
order. -/
noncomputable def exAccStRev : RunningSufficientStats :=
  (applyAll exFresh [exChunkB, exChunkA]).toOption.getD exFresh

/-! ## Theorems -/

/-- A first-contribution `update` (seen counter 0) always succeeds, adopting
the incoming sample sizes and variant ids. -/
theorem update_eq_ok (st : RunningSufficientStats) (g : IntermediateResults)
    (h : st.n_features_seen = 0 ∨ st.variant_ids = some g.variant_ids) :
    update st g = .ok (updateOk st g) := by
  unfold update updateOk
  by_cases h0 : st.n_features_seen = 0
  · simp [h0]
  · rcases h with h | h2
    · exact absurd h h0
    · simp [h0, h2]

/-- The variant ids a successful update stores. -/
theorem updateOk_variant_ids (st : RunningSufficientStats) (g : IntermediateResults) :
    (updateOk st g).variant_ids =
      if st.n_features_seen = 0 then some g.variant_ids else st.variant_ids := by
  unfold updateOk
  by_cases h0 : st.n_features_seen = 0 <;> simp [h0]

/-- `applyAll` steps through a successful update. -/
theorem applyAll_cons_ok (st st1 : RunningSufficientStats)
    (c : IntermediateResults) (l : List IntermediateResults)
    (h : update st c = .ok st1) : applyAll st (c :: l) = applyAll st1 l := by
  simp [applyAll, h]

/-- `applyAll` stops at a panicking update. -/
theorem applyAll_cons_err (st e : RunningSufficientStats)
    (c : IntermediateResults) (l : List IntermediateResults)
    (h : update st c = .error e) : applyAll st (c :: l) = .error e := by
  simp [applyAll, h]

/-- Once at least one phenotype has been seen, further updates fold the
incoming sample sizes into the running vector with elementwise `min`. -/
theorem applyAll_sample_sizes_pos (l : List IntermediateResults) :
    ∀ st st' : RunningSufficientStats, st.n_features_seen ≠ 0 →
      applyAll st l = .ok st' → ∀ i : ℕ,
      st'.sample_sizes i =
        (l.map (fun c => c.sample_sizes i)).foldl min (st.sample_sizes i) := by
  induction l with
  | nil =>
    intro st st' _ hap i
    simp only [applyAll, Except.ok.injEq] at hap
    subst hap
    simp
  | cons c t ih =>
    intro st st' h hap i
    cases hu : update st c with
    | error e =>
      rw [applyAll_cons_err st e c t hu] at hap
      exact absurd hap (by simp)
    | ok st1 =>
      rw [applyAll_cons_ok st st1 c t hu] at hap
      by_cases h2 : st.variant_ids = some c.variant_ids
      · have hu2 : update st c = .ok (updateOk st c) := update_eq_ok st c (Or.inr h2)
        rw [hu] at hu2
        have hst1 : st1 = updateOk st c := by
          simpa using hu2
        subst hst1
        have hseen : (updateOk st c).n_features_seen ≠ 0 := by
          unfold updateOk
          by_cases h0 : st.n_features_seen = 0 <;> simp [h0]
        have hmin : (updateOk st c).sample_sizes i =
            min (st.sample_sizes i) (c.sample_sizes i) := by
          unfold updateOk
          rw [if_neg h]
        have hrec := ih (updateOk st c) st' hseen hap i
        rw [hrec, hmin, List.map_cons, List.foldl_cons]
      · exfalso
        unfold update at hu
        simp [h, h2] at hu

/-- C3: after k ≥ 1 successful updates on a fresh window (seen counter 0),
the running sample-size vector is the elementwise minimum of all k
contributed sample-size vectors — the first call adopts its vector, each
later call folds in an elementwise `min` (the seed term is the first
vector, repeated harmlessly by idempotence of `min`). -/
theorem C3_sample_size_min (st : RunningSufficientStats)
    (c : IntermediateResults) (t : List IntermediateResults)
    (st' : RunningSufficientStats) (h0 : st.n_features_seen = 0)
    (hap : applyAll st (c :: t) = .ok st') (i : ℕ) :
    st'.sample_sizes i =
      ((c :: t).map (fun d => d.sample_sizes i)).foldl min (c.sample_sizes i) := by
  have hu : update st c = .ok (updateOk st c) := update_eq_ok st c (Or.inl h0)
  rw [applyAll_cons_ok st (updateOk st c) c t hu] at hap
  have hseen : (updateOk st c).n_features_seen ≠ 0 := by
    unfold updateOk
    by_cases hz : st.n_features_seen = 0 <;> simp [hz]
  have hadopt : (updateOk st c).sample_sizes i = c.sample_sizes i := by
    unfold updateOk
    rw [if_pos h0]
  have hrec := applyAll_sample_sizes_pos t (updateOk st c) st' hseen hap i
  rw [hrec, hadopt, List.map_cons, List.foldl_cons, min_self]

/-- C3, witness: applying `exChunkA` (sample size 5) then `exChunkB`
(sample size 3) to the fresh window yields the elementwise minimum fold. -/
theorem C3_sample_size_min_witness :
    exAccSt.sample_sizes 0 =
      (([exChunkA, exChunkB]).map (fun d => d.sample_sizes 0)).foldl min
        (exChunkA.sample_sizes 0) :=
  C3_sample_size_min exFresh exChunkA [exChunkB] exAccSt rfl rfl 0

/-- Two successful updates with the same variant ids commute on the
aggregator state: additions commute and elementwise minima commute, and
after any first update the seen counter is positive, so the adopt branch is
taken by whichever update comes first. -/
theorem updateOk_comm (st : RunningSufficientStats)
    (a b : IntermediateResults) (hab : a.variant_ids = b.variant_ids) :
    updateOk (updateOk st a) b = updateOk (updateOk st b) a := by
  unfold updateOk
  by_cases h0 : st.n_features_seen = 0
  · simp only [h0, if_pos rfl, if_true, reduceIte, Nat.succ_ne_zero, if_false]
    refine RunningSufficientStats.ext ?_ ?_ ?_ rfl rfl rfl rfl rfl rfl rfl rfl ?_ rfl rfl
    · funext i j
      dsimp only
      ring
    · funext i
      dsimp only
      ring
    · funext i
      dsimp only
      exact min_comm _ _
    · dsimp only
      rw [hab]
  · simp only [h0, if_neg h0, reduceIte, Nat.succ_ne_zero, if_false]
    refine RunningSufficientStats.ext ?_ ?_ ?_ rfl rfl rfl rfl rfl rfl rfl rfl rfl rfl rfl
    · funext i j
      dsimp only
      ring
    · funext i
      dsimp only
      ring
    · funext i
      dsimp only
      exact min_right_comm _ _ _

/-- Applying a permuted list of chunks (all carrying the same variant ids)
yields the same result, by induction over the permutation. -/
theorem applyAll_perm (ids0 : List String)
    {l1 l2 : List IntermediateResults} (hp : l1.Perm l2) :
    ∀ st : RunningSufficientStats,
      (∀ c ∈ l1, c.variant_ids = ids0) →
      (st.n_features_seen = 0 ∨ st.variant_ids = some ids0) →
      applyAll st l1 = applyAll st l2 := by
  induction hp with
  | nil =>
    intro st _ _
    rfl
  | cons x hp ih =>
    intro st h hst
    have hok : st.n_features_seen = 0 ∨ st.variant_ids = some x.variant_ids := by
      rcases hst with h0 | hs
      · exact Or.inl h0
      · right
        rw [hs, h x (List.mem_cons_self _ _)]
    have hx : update st x = .ok (updateOk st x) := update_eq_ok st x hok
    rw [applyAll_cons_ok st (updateOk st x) x _ hx,
      applyAll_cons_ok st (updateOk st x) x _ hx]
    apply ih
    · intro c hc
      exact h c (List.mem_cons_of_mem _ hc)
    · right
      rw [updateOk_variant_ids]
      by_cases h0 : st.n_features_seen = 0
      · rw [if_pos h0, h x (List.mem_cons_self _ _)]
      · rw [if_neg h0]
        rcases hst with hs | hs
        · exact absurd hs h0
        · exact hs
  | swap x y t =>
    intro st h hst
    have hyv : y.variant_ids = ids0 := h y (List.mem_cons_self _ _)
    have hxv : x.variant_ids = ids0 := h x (List.mem_cons_of_mem _ (List.mem_cons_self _ _))
    have hoky : st.n_features_seen = 0 ∨ st.variant_ids = some y.variant_ids := by
      rcases hst with h0 | hs
      · exact Or.inl h0
      · right
        rw [hs, hyv]
    have hokx : st.n_features_seen = 0 ∨ st.variant_ids = some x.variant_ids := by
      rcases hst with h0 | hs
      · exact Or.inl h0
      · right
        rw [hs, hxv]
    have hy : update st y = .ok (updateOk st y) := update_eq_ok st y hoky
    have hx : update st x = .ok (updateOk st x) := update_eq_ok st x hokx
    have hyx : update (updateOk st y) x = .ok (updateOk (updateOk st y) x) := by
      apply update_eq_ok
      right
      rw [updateOk_variant_ids]
      by_cases h0 : st.n_features_seen = 0
      · rw [if_pos h0, hyv, hxv]
      · rw [if_neg h0]
        rcases hst with hs | hs
        · exact absurd hs h0
        · rw [hs, hxv]
    have hxy : update (updateOk st x) y = .ok (updateOk (updateOk st x) y) := by
      apply update_eq_ok
      right
      rw [updateOk_variant_ids]
      by_cases h0 : st.n_features_seen = 0
      · rw [if_pos h0, hyv, hxv]
      · rw [if_neg h0]
        rcases hst with hs | hs
        · exact absurd hs h0
        · rw [hs, hyv]
    rw [applyAll_cons_ok st (updateOk st y) y _ hy,
      applyAll_cons_ok (updateOk st y) (updateOk (updateOk st y) x) x _ hyx,
      applyAll_cons_ok st (updateOk st x) x _ hx,
      applyAll_cons_ok (updateOk st x) (updateOk (updateOk st x) y) y _ hxy,
      updateOk_comm st y x (hyv.trans hxv.symm)]
  | trans h12 _ ih1 ih2 =>
    intro st h hst
    rw [ih1 st h hst]
    apply ih2 st
    · intro c hc
      exact h c (h12.mem_iff.mpr hc)
    · exact hst

/-- C4: applying the same chunks (identical variant-id sequences) to two
fresh aggregators for the same window in any two orders yields identical
accumulated beta matrix, variance accumulator, and sample-size vector
before finalize. -/
theorem C4_update_commutative (st : RunningSufficientStats)
    (l1 l2 : List IntermediateResults) (ids0 : List String)
    (hperm : l1.Perm l2) (hids : ∀ c ∈ l1, c.variant_ids = ids0)
    (h0 : st.n_features_seen = 0)
    (st1' st2' : RunningSufficientStats)
    (hap1 : applyAll st l1 = .ok st1') (hap2 : applyAll st l2 = .ok st2') :
    st1'.beta = st2'.beta ∧ st1'.gpv = st2'.gpv ∧
      st1'.sample_sizes = st2'.sample_sizes := by
  have heq : applyAll st l1 = applyAll st l2 :=
    applyAll_perm ids0 hperm st hids (Or.inl h0)
  rw [hap1, hap2] at heq
  have : st1' = st2' := by simpa using heq
  subst this
  exact ⟨rfl, rfl, rfl⟩

/-- C4, witness: the two orders of `[exChunkA, exChunkB]` on the fresh
window agree on beta, gpv and sample sizes. -/
theorem C4_update_commutative_witness :
    exAccSt.beta = exAccStRev.beta ∧ exAccSt.gpv = exAccStRev.gpv ∧
      exAccSt.sample_sizes = exAccStRev.sample_sizes :=
  C4_update_commutative exFresh [exChunkA, exChunkB] [exChunkB, exChunkA] ["v"]
    (List.Perm.swap exChunkB exChunkA [])
    (by
      intro c hc
      simp only [List.mem_cons, List.mem_singleton, List.not_mem_nil, or_false] at hc
      rcases hc with rfl | rfl
      · rfl
      · rfl)
    rfl exAccSt exAccStRev rfl rfl

/-- Element lookup in the flattening of `n` copies of the same list: block
structure makes entry `k` the entry `k % l.length` of the base list. -/
theorem flatten_replicate_getD (n : ℕ) (l : List String) (k : ℕ) (d : String)
    (h : k < n * l.length) :
    ((List.replicate n l).flatten.getD k d) = l.getD (k % l.length) d := by
  induction n generalizing k with
  | zero => omega
  | succ m ih =>
    rw [List.replicate_succ, List.flatten_cons]
    by_cases hk : k < l.length
    · rw [List.getD_append _ _ _ _ hk, Nat.mod_eq_of_lt hk]
    · push_neg at hk
      rw [Nat.succ_mul] at h
      rw [List.getD_append_right _ _ _ _ hk, ih _ (by omega),
        ← Nat.mod_eq_sub_mod hk]

/-- Element lookup in the flat map that repeats each element `c` times:
entry `k` is element `k / c` of the base list. -/
theorem flatMap_replicate_getD (c : ℕ) (l : List String) (k : ℕ) (d : String)
    (h : k < l.length * c) :
    (l.flatMap (fun x => List.replicate c x)).getD k d = l.getD (k / c) d := by
  induction l generalizing k with
  | nil => simp at h
  | cons x t ih =>
    rw [List.flatMap_cons]
    have hc : 0 < c := by
      rcases Nat.eq_zero_or_pos c with h0 | h0
      · rw [h0] at h; omega
      · exact h0
    by_cases hk : k < c
    · rw [List.getD_append _ _ _ _ (by simpa using hk), Nat.div_eq_of_lt hk]
      rw [List.getD_eq_getElem _ _ (by simpa using hk), List.getElem_replicate]
      rfl
    · push_neg at hk
      rw [List.length_cons, Nat.succ_mul] at h
      rw [List.getD_append_right _ _ _ _ (by simpa using hk),
        List.length_replicate, ih _ (by omega), Nat.div_eq_sub_div hc hk]
      rfl

/-- Length of the flattened replication. -/
theorem length_flatten_replicate (n : ℕ) (l : List String) :
    ((List.replicate n l).flatten).length = n * l.length := by
  simp [List.length_flatten, List.map_replicate, List.sum_replicate, smul_eq_mul]

/-- Length of the per-element replication. -/
theorem length_flatMap_replicate (c : ℕ) (l : List String) :
    (l.flatMap (fun x => List.replicate c x)).length = l.length * c := by
  induction l with
  | nil => simp
  | cons x t ih => simp [List.flatMap_cons, ih, Nat.succ_mul, Nat.add_comm]

/-- C7: the finalized result set is flattened projection-major then
variant-minor — row `k` carries projection label `k / chunksize` (each label
repeated chunksize times, in projection-label order), variant id
`k % chunksize` (the canonical window sequence replicated once per
projection), the beta entry `(k % chunksize, k / chunksize)` of the
accumulated matrix, and the window's per-variant sample size replicated the
same way; the replicated id vectors have length
n_projections · chunksize. -/
theorem C7_result_layout (pfn : ℝ → ℤ → ℝ) (st : RunningSufficientStats)
    (ids : List String)
    (h1 : st.n_features_seen = st.n_features) (h2 : st.variant_ids = some ids)
    (hlen : ids.length = st.chunksize)
    (hplen : st.projection_ids.length = st.n_projections) :
    ∃ r st1, compute_final_stats pfn st = .ok (r, st1) ∧
      r.variant_ids.length = st.n_projections * st.chunksize ∧
      r.projection_ids.length = st.n_projections * st.chunksize ∧
      ∀ k : ℕ, k < st.chunksize * st.n_projections →
        r.projection_ids.getD k "" = st.projection_ids.getD (k / st.chunksize) "" ∧
        r.variant_ids.getD k "" = ids.getD (k % st.chunksize) "" ∧
        r.beta_values k = st.beta (k % st.chunksize) (k / st.chunksize) ∧
        r.sample_sizes k = st.sample_sizes (k % st.chunksize) := by
  unfold compute_final_stats
  rw [if_neg (not_ne_iff.mpr h1), h2]
  refine ⟨_, _, rfl, ?_, ?_, ?_⟩
  · dsimp only
    rw [length_flatten_replicate, hlen]
  · dsimp only
    rw [length_flatMap_replicate, hplen, Nat.mul_comm]
  · intro k hk
    refine ⟨?_, ?_, rfl, rfl⟩
    · dsimp only
      rw [flatMap_replicate_getD _ _ _ _ (by rw [hplen, Nat.mul_comm]; exact hk)]
    · dsimp only
      rw [flatten_replicate_getD _ _ _ _ (by rw [hlen, Nat.mul_comm]; exact hk), hlen]

/-- C7, witness: the layout theorem instantiated on the completed concrete
window `exSt`. -/
theorem C7_result_layout_witness :
    ∃ r st1, compute_final_stats pfn0 exSt = .ok (r, st1) ∧
      r.variant_ids.length = exSt.n_projections * exSt.chunksize ∧
      r.projection_ids.length = exSt.n_projections * exSt.chunksize ∧
      ∀ k : ℕ, k < exSt.chunksize * exSt.n_projections →
        r.projection_ids.getD k "" =
          exSt.projection_ids.getD (k / exSt.chunksize) "" ∧
        r.variant_ids.getD k "" = ["v"].getD (k % exSt.chunksize) "" ∧
        r.beta_values k = exSt.beta (k % exSt.chunksize) (k / exSt.chunksize) ∧
        r.sample_sizes k = exSt.sample_sizes (k % exSt.chunksize) :=
  C7_result_layout pfn0 exSt ["v"] rfl rfl rfl rfl

/-- C1: on a window where every phenotype has contributed (seen counter
equals the phenotype count, canonical ids captured), finalize succeeds and:
dof[i] = sample_sizes[i] - 2 - num_covariates; ppv[j] is the j-th diagonal
entry of projectionᵗ · covariance · projection; the variance accumulator is
first divided by the phenotype count (the returned state carries the divided
accumulator); se[i,j] = sqrt((ppv[j]/variance[i] - beta[i,j]^2) / dof[i]);
t[i,j] = beta[i,j] / se[i,j]; and the significance entry is the collaborator
`pfn` applied to (t[i,j], dof[i]) — all read off the flattened result at
index j·chunksize + i. -/
theorem C1_finalize_formulas (pfn : ℝ → ℤ → ℝ) (st : RunningSufficientStats)
    (ids : List String)
    (h1 : st.n_features_seen = st.n_features) (h2 : st.variant_ids = some ids) :
    ∃ r st1, compute_final_stats pfn st = .ok (r, st1) ∧
      (∀ i : ℕ, dofOf st i = st.sample_sizes i - 2 - (st.n_covar : ℤ)) ∧
      (∀ j : ℕ, ppvOf st j =
        matMul (matMul (transpose st.proj) st.cov st.n_features) st.proj
          st.n_features j j) ∧
      st1.gpv = (fun i => st.gpv i / (st.n_features : ℝ)) ∧
      ∀ i j : ℕ, i < st.chunksize →
        r.se_values (j * st.chunksize + i) =
          Real.sqrt ((ppvOf st j / (st.gpv i / (st.n_features : ℝ)) -
            st.beta i j ^ 2) / ((st.sample_sizes i - 2 - (st.n_covar : ℤ) : ℤ) : ℝ)) ∧
        r.t_stat_values (j * st.chunksize + i) =
          st.beta i j / r.se_values (j * st.chunksize + i) ∧
        r.p_values (j * st.chunksize + i) =
          pfn (r.t_stat_values (j * st.chunksize + i))
            (st.sample_sizes i - 2 - (st.n_covar : ℤ)) := by
  unfold compute_final_stats
  rw [if_neg (not_ne_iff.mpr h1), h2]
  refine ⟨_, _, rfl, fun i => rfl, fun j => rfl, ?_, ?_⟩
  · dsimp only
    rw [h1]
  · intro i j hi
    have hc : 0 < st.chunksize := lt_of_le_of_lt (Nat.zero_le i) hi
    have hmod : (j * st.chunksize + i) % st.chunksize = i := by
      rw [Nat.mul_add_mod', Nat.mod_eq_of_lt hi]
    have hdiv : (j * st.chunksize + i) / st.chunksize = j := by
      rw [mul_comm, Nat.mul_add_div hc, Nat.div_eq_of_lt hi, add_zero]
    refine ⟨?_, ?_, ?_⟩
    · dsimp only
      rw [hmod, hdiv, h1]
      rfl
    · dsimp only
      rw [hmod, hdiv]
    · dsimp only
      rw [hmod, hdiv]
      unfold dofOf
      rfl

/-- C1, witness: the finalize formulas instantiated on the completed
concrete window `exSt`. -/
theorem C1_finalize_formulas_witness :
    ∃ r st1, compute_final_stats pfn0 exSt = .ok (r, st1) ∧
      (∀ i : ℕ, dofOf exSt i = exSt.sample_sizes i - 2 - (exSt.n_covar : ℤ)) ∧
      (∀ j : ℕ, ppvOf exSt j =
        matMul (matMul (transpose exSt.proj) exSt.cov exSt.n_features) exSt.proj
          exSt.n_features j j) ∧
      st1.gpv = (fun i => exSt.gpv i / (exSt.n_features : ℝ)) ∧
      ∀ i j : ℕ, i < exSt.chunksize →
        r.se_values (j * exSt.chunksize + i) =
          Real.sqrt ((ppvOf exSt j / (exSt.gpv i / (exSt.n_features : ℝ)) -
            exSt.beta i j ^ 2) /
            ((exSt.sample_sizes i - 2 - (exSt.n_covar : ℤ) : ℤ) : ℝ)) ∧
        r.t_stat_values (j * exSt.chunksize + i) =
          exSt.beta i j / r.se_values (j * exSt.chunksize + i) ∧
        r.p_values (j * exSt.chunksize + i) =
          pfn0 (r.t_stat_values (j * exSt.chunksize + i))
            (exSt.sample_sizes i - 2 - (exSt.n_covar : ℤ)) :=
  C1_finalize_formulas pfn0 exSt ["v"] rfl rfl

/-- C10: finalize is not idempotent.  When finalize succeeds it leaves the
seen counter, feature count, variant ids and beta matrix untouched but
stores the variance accumulator divided by the phenotype count, so an
immediately repeated call (no ClearWindow or Update in between) also
succeeds yet divides the accumulator a second time; on the concrete window
`exSt` the two calls return different standard errors, t-statistics, and
significance values. -/
theorem C10_finalize_not_idempotent :
    (∀ (pfn : ℝ → ℤ → ℝ) (st : RunningSufficientStats) (ids : List String),
      st.n_features_seen = st.n_features → st.variant_ids = some ids →
      ∃ r1 st1, compute_final_stats pfn st = .ok (r1, st1) ∧
        st1.n_features_seen = st.n_features_seen ∧
        st1.n_features = st.n_features ∧
        st1.variant_ids = st.variant_ids ∧
        st1.beta = st.beta ∧
        st1.gpv = (fun i => st.gpv i / (st.n_features_seen : ℝ)) ∧
        ∃ r2 st2, compute_final_stats pfn st1 = .ok (r2, st2)) ∧
    (∃ r1 st1 r2 st2,
      compute_final_stats pfn0 exSt = .ok (r1, st1) ∧
      compute_final_stats pfn0 st1 = .ok (r2, st2) ∧
      r1.se_values 0 ≠ r2.se_values 0 ∧
      r1.t_stat_values 0 ≠ r2.t_stat_values 0 ∧
      r1.p_values 0 ≠ r2.p_values 0) := by
  constructor
  · intro pfn st ids h1 h2
    unfold compute_final_stats
    rw [if_neg (not_ne_iff.mpr h1), h2]
    refine ⟨_, _, rfl, rfl, rfl, rfl, rfl, rfl, ?_⟩
    dsimp only
    rw [if_neg (not_ne_iff.mpr h1)]
    exact ⟨_, _, rfl⟩
  · have hppv : ppvOf exSt 0 = 2 := by
      unfold ppvOf matMul transpose
      simp only [exSt, Finset.sum_range_succ, Finset.sum_range_zero]
      norm_num
    have hdof : dofOf exSt 0 = 1 := by
      unfold dofOf
      simp [exSt]
    have hppvr : ppvOf
        { exSt with gpv := fun i => exSt.gpv i / (exSt.n_features_seen : ℝ) } =
        ppvOf exSt := rfl
    have hdofr : dofOf
        { exSt with gpv := fun i => exSt.gpv i / (exSt.n_features_seen : ℝ) } =
        dofOf exSt := rfl
    have hgpv : exSt.gpv 0 = 2 := rfl
    have hseen : exSt.n_features_seen = 2 := rfl
    have hse1 : Real.sqrt ((ppvOf exSt (0 / exSt.chunksize) /
        (exSt.gpv (0 % exSt.chunksize) / (exSt.n_features_seen : ℝ)) -
        exSt.beta (0 % exSt.chunksize) (0 / exSt.chunksize) ^ 2) /
        ((dofOf exSt (0 % exSt.chunksize) : ℤ) : ℝ)) = 1 := by
      rw [show (0 : ℕ) / exSt.chunksize = 0 from rfl,
        show (0 : ℕ) % exSt.chunksize = 0 from rfl, hppv, hdof, hgpv, hseen,
        show exSt.beta 0 0 = (1 : ℝ) from rfl]
      norm_num
    have hsqrt3 : Real.sqrt 3 ≠ 1 := by
      intro h
      have h31 := Real.sqrt_eq_one.mp h
      norm_num at h31
    refine ⟨_, _, _, _, rfl, rfl, ?_, ?_, ?_⟩
    · dsimp only
      rw [hse1, show (0 : ℕ) / exSt.chunksize = 0 from rfl,
        show (0 : ℕ) % exSt.chunksize = 0 from rfl, hppvr, hdofr, hppv, hdof, hgpv,
        hseen, show exSt.beta 0 0 = (1 : ℝ) from rfl]
      norm_num
      intro h
      exact hsqrt3 h.symm
    · dsimp only
      rw [hse1, show (0 : ℕ) / exSt.chunksize = 0 from rfl,
        show (0 : ℕ) % exSt.chunksize = 0 from rfl, hppvr, hdofr, hppv, hdof, hgpv,
        hseen, show exSt.beta 0 0 = (1 : ℝ) from rfl]
      norm_num
    · dsimp only [pfn0]
      rw [hse1, show (0 : ℕ) / exSt.chunksize = 0 from rfl,
        show (0 : ℕ) % exSt.chunksize = 0 from rfl, hppvr, hdofr, hppv, hdof, hgpv,
        hseen, show exSt.beta 0 0 = (1 : ℝ) from rfl]
      norm_num

/-- C10, witness: the non-idempotence theorem's general part instantiated on
the completed concrete window `exSt`. -/
theorem C10_finalize_not_idempotent_witness :
    ∃ r1 st1, compute_final_stats pfn0 exSt = .ok (r1, st1) ∧
      st1.n_features_seen = exSt.n_features_seen ∧
      st1.n_features = exSt.n_features ∧
      st1.variant_ids = exSt.variant_ids ∧
      st1.beta = exSt.beta ∧
      st1.gpv = (fun i => exSt.gpv i / (exSt.n_features_seen : ℝ)) ∧
      ∃ r2 st2, compute_final_stats pfn0 st1 = .ok (r2, st2) :=
  C10_finalize_not_idempotent.1 pfn0 exSt ["v"] rfl rfl

/-- C8: whenever the pipeline completes, its write sequence is the window
loop's writes followed by exactly one additional unconditional
finalize-and-write, performed on whatever state the loop left in the
aggregator, with `include_header = false`. -/
theorem C8_trailing_finalize (pfn : ℝ → ℤ → ℝ) (p2p : String → String)
    (projM covM : LabeledMatrix) (files : List String)
    (read : ℕ → ℕ → List IntermediateResults) (nl ncovar cs : ℕ)
    (evs : List (IGwasResults × Bool))
    (h : run pfn p2p projM covM files read nl ncovar cs = some evs) :
    ∃ paths st0 levs stL r stT,
      check_filter_inputs p2p projM.row_labels covM.col_labels files = .ok paths ∧
      RunningSufficientStats.new projM covM ncovar cs = .ok st0 ∧
      runLoopAux pfn read nl cs nl 0 0 st0 = some (levs, stL) ∧
      compute_final_stats pfn stL = .ok (r, stT) ∧
      evs = levs ++ [(r, false)] := by
  unfold run at h
  cases hcf : check_filter_inputs p2p projM.row_labels covM.col_labels files with
  | error e =>
    rw [hcf] at h
    simp at h
  | ok paths =>
    rw [hcf] at h
    dsimp only at h
    cases hnew : RunningSufficientStats.new projM covM ncovar cs with
    | error e =>
      rw [hnew] at h
      simp at h
    | ok st0 =>
      rw [hnew] at h
      dsimp only at h
      cases hloop : runLoopAux pfn read nl cs nl 0 0 st0 with
      | none =>
        rw [hloop] at h
        simp at h
      | some p =>
        obtain ⟨levs, stL⟩ := p
        rw [hloop] at h
        dsimp only at h
        cases hfin : compute_final_stats pfn stL with
        | error e =>
          rw [hfin] at h
          simp at h
        | ok q =>
          obtain ⟨r, stT⟩ := q
          rw [hfin] at h
          simp only [Option.some.injEq] at h
          exact ⟨paths, st0, levs, stL, r, stT, rfl, rfl, hloop, hfin, h.symm⟩

/-- C8, witness: a complete one-window pipeline example (one phenotype, one
variant, chunksize 1) whose write sequence exhibits the trailing
header-less write. -/
theorem C8_trailing_finalize_witness :
    ∃ paths st0 levs stL r stT,
      check_filter_inputs (fun s => s) exProjM.row_labels exCovM.col_labels
        ["a"] = .ok paths ∧
      RunningSufficientStats.new exProjM exCovM 0 1 = .ok st0 ∧
      runLoopAux pfn0 exRead 1 1 1 0 0 st0 = some (levs, stL) ∧
      compute_final_stats pfn0 stL = .ok (r, stT) ∧
      exRunEvs = levs ++ [(r, false)] :=
  C8_trailing_finalize pfn0 (fun s => s) exProjM exCovM ["a"] exRead 1 0 1
    exRunEvs rfl

/-- C6, counterexample: the claim says `ClearWindow` discards the previously
captured variant-identifier sequence, but `clear_chunk` leaves
`variant_ids` untouched — on both the reallocation branch (new size 7 ≠ 1)
and the fill branch (same size), the old window's ids survive. -/
theorem C6_clear_chunk_counterexample :
    (clear_chunk exSt 7).variant_ids = some ["v"] ∧ 7 ≠ exSt.chunksize ∧
    (clear_chunk exSt exSt.chunksize).variant_ids = some ["v"] :=
  ⟨rfl, by decide, rfl⟩

/-- C6, amended: `clear_chunk` zeroes the beta matrix, the variance
accumulator and the sample-size vector, sets the buffer size to the new
window size, resets the seen counter to zero, and leaves every other field —
in particular the previously captured variant-identifier sequence — exactly
as it was (the ids are only superseded by the next window's first update). -/
theorem C6_clear_chunk_amended (st : RunningSufficientStats) (n : ℕ) :
    (clear_chunk st n).beta = (fun _ _ => 0) ∧
    (clear_chunk st n).gpv = (fun _ => 0) ∧
    (clear_chunk st n).sample_sizes = (fun _ => 0) ∧
    (clear_chunk st n).chunksize = n ∧
    (clear_chunk st n).n_features_seen = 0 ∧
    (clear_chunk st n).variant_ids = st.variant_ids ∧
    (clear_chunk st n).cov = st.cov ∧
    (clear_chunk st n).fpv = st.fpv ∧
    (clear_chunk st n).proj = st.proj ∧
    (clear_chunk st n).n_covar = st.n_covar ∧
    (clear_chunk st n).n_features = st.n_features ∧
    (clear_chunk st n).n_projections = st.n_projections ∧
    (clear_chunk st n).phenotype_id_to_idx = st.phenotype_id_to_idx ∧
    (clear_chunk st n).projection_ids = st.projection_ids := by
  unfold clear_chunk
  split_ifs with h
  · exact ⟨rfl, rfl, rfl, rfl, rfl, rfl, rfl, rfl, rfl, rfl, rfl, rfl, rfl, rfl⟩
  · exact ⟨rfl, rfl, rfl, (not_ne_iff.mp h).symm, rfl, rfl, rfl, rfl, rfl, rfl, rfl,
      rfl, rfl, rfl⟩

/-- C2, counterexample: the claim says a failing `update` leaves the
sample-size vector unchanged, but the source assigns the elementwise minimum
to `self.sample_sizes` before the variant-id assertion fires: with canonical
ids `["v"]`, sample size 3, and an incoming chunk with ids `["w"]` and
sample size 2, the call panics with the sample-size entry already replaced
by 2. -/
theorem C2_update_counterexample :
    update exSt exChunkBad = .error exErrSt ∧
    exErrSt.sample_sizes 0 = 2 ∧ exSt.sample_sizes 0 = 3 :=
  ⟨rfl, by decide, rfl⟩

/-- C2, amended: when `update` fails with mismatched variant ids, the beta
matrix, variance accumulator, seen counter, and stored variant ids are left
unchanged, but the sample-size vector has already been replaced by its
elementwise minimum with the incoming vector; the failure can only occur
from the second contribution onward, when the incoming ids differ from the
canonical ones. -/
theorem C2_update_failure_frame (st : RunningSufficientStats)
    (g : IntermediateResults) (e : RunningSufficientStats)
    (h : update st g = .error e) :
    e.beta = st.beta ∧ e.gpv = st.gpv ∧
    e.n_features_seen = st.n_features_seen ∧
    e.variant_ids = st.variant_ids ∧
    e.sample_sizes = (fun i => min (st.sample_sizes i) (g.sample_sizes i)) ∧
    st.n_features_seen ≠ 0 ∧ st.variant_ids ≠ some g.variant_ids := by
  unfold update at h
  by_cases h1 : st.n_features_seen = 0
  · simp [h1] at h
  · simp only [if_neg h1] at h
    by_cases h2 : st.variant_ids = some g.variant_ids
    · simp [h2] at h
    · simp only [if_neg h2, Except.error.injEq] at h
      subst h
      exact ⟨rfl, rfl, rfl, rfl, rfl, h1, h2⟩

/-- C2, witness: the frame theorem applied to the concrete failing call
`update exSt exChunkBad`. -/
theorem C2_update_failure_frame_witness :
    exErrSt.beta = exSt.beta ∧ exErrSt.gpv = exSt.gpv ∧
    exErrSt.n_features_seen = exSt.n_features_seen ∧
    exErrSt.variant_ids = exSt.variant_ids ∧
    exErrSt.sample_sizes =
      (fun i => min (exSt.sample_sizes i) (exChunkBad.sample_sizes i)) ∧
    exSt.n_features_seen ≠ 0 ∧ exSt.variant_ids ≠ some exChunkBad.variant_ids :=
  C2_update_failure_frame exSt exChunkBad exErrSt rfl

/-- C5, counterexample: the claim says `compute_final_stats` succeeds
whenever the seen counter equals the phenotype count, but in the degenerate
zero-phenotype state the counts are equal (0 = 0) and the call still fails —
on the `unwrap` of the never-captured variant ids, not with
IncompleteAggregation. -/
theorem C5_finalize_counterexample :
    compute_final_stats pfn0 exC5St = .error .missingVariantIds ∧
    exC5St.n_features_seen = exC5St.n_features :=
  ⟨rfl, rfl⟩

/-- C5, amended: `compute_final_stats` fails with IncompleteAggregation
exactly when the seen counter differs from the feature count; when the
counts agree and a canonical variant-id sequence has been captured (as any
first update guarantees), it succeeds and produces the finalized results.
(Only the zero-phenotype corner, where the counts agree vacuously with no
update ever run, fails on the missing ids instead of succeeding.) -/
theorem C5_finalize_amended :
    (∀ (pfn : ℝ → ℤ → ℝ) (st : RunningSufficientStats),
      compute_final_stats pfn st = .error .incompleteAggregation ↔
        st.n_features_seen ≠ st.n_features) ∧
    (∀ (pfn : ℝ → ℤ → ℝ) (st : RunningSufficientStats) (ids : List String),
      st.n_features_seen = st.n_features → st.variant_ids = some ids →
      ∃ r st1, compute_final_stats pfn st = .ok (r, st1)) := by
  constructor
  · intro pfn st
    unfold compute_final_stats
    by_cases h : st.n_features_seen ≠ st.n_features
    · simp [h]
    · simp only [if_neg h]
      cases hv : st.variant_ids with
      | none => simp [h]
      | some ids => simp [h]
  · intro pfn st ids h1 h2
    unfold compute_final_stats
    rw [if_neg (not_ne_iff.mpr h1), h2]
    exact ⟨_, _, rfl⟩

/-- C5, witness: on the completed window `exSt` (seen 2 = features 2,
captured ids `["v"]`) the amended theorem yields a successful finalize. -/
theorem C5_finalize_amended_witness :
    ∃ r st1, compute_final_stats pfn0 exSt = .ok (r, st1) :=
  C5_finalize_amended.2 pfn0 exSt ["v"] rfl rfl


/-- Lookup in an association list succeeds exactly for the stored keys. -/
theorem lookup_isSome_iff (m : List (String × String)) (a : String) :
    ((m.lookup a).isSome = true) ↔ a ∈ m.map Prod.fst := by
  induction m with
  | nil => simp [List.lookup]
  | cons p t ih =>
    obtain ⟨k, v⟩ := p
    by_cases h : a = k
    · simp [List.lookup, h]
    · have hb : (a == k) = false := beq_eq_false_iff_ne.mpr h
      simp only [List.lookup, hb, List.map_cons, List.mem_cons]
      rw [ih]
      simp [h]

/-- Removing a key commutes with taking the key list. -/
theorem map_fst_filter_ne (m : List (String × String)) (x : String) :
    (m.filter (fun p => p.1 != x)).map Prod.fst =
      (m.map Prod.fst).filter (fun k => k != x) := by
  induction m with
  | nil => rfl
  | cons p t ih =>
    obtain ⟨k, v⟩ := p
    by_cases h : k = x
    · simp [List.filter_cons, h, ih]
    · simp [List.filter_cons, h, ih]

/-- A successful map build stores exactly the derived phenotype names, in
order, after any pre-existing keys. -/
theorem build_ok_keys (p2p : String → String) :
    ∀ (files : List String) (m m' : List (String × String)),
      build_phenotype_map p2p files m = .ok m' →
      m'.map Prod.fst = m.map Prod.fst ++ files.map p2p := by
  intro files
  induction files with
  | nil =>
    intro m m' h
    simp only [build_phenotype_map, Except.ok.injEq] at h
    subst h
    simp
  | cons f t ih =>
    intro m m' h
    unfold build_phenotype_map at h
    by_cases hl : (m.lookup (p2p f)).isSome = true
    · rw [if_pos hl] at h
      exact Except.noConfusion h
    · rw [if_neg hl] at h
      have := ih _ _ h
      rw [this]
      simp [List.map_append, List.append_assoc]

/-- A successful map build implies the derived phenotype names were
pairwise distinct (and distinct from pre-existing keys). -/
theorem build_ok_nodup (p2p : String → String) :
    ∀ (files : List String) (m m' : List (String × String)),
      (m.map Prod.fst).Nodup → build_phenotype_map p2p files m = .ok m' →
      (m.map Prod.fst ++ files.map p2p).Nodup := by
  intro files
  induction files with
  | nil =>
    intro m m' hnd _
    simpa using hnd
  | cons f t ih =>
    intro m m' hnd h
    unfold build_phenotype_map at h
    by_cases hl : (m.lookup (p2p f)).isSome = true
    · rw [if_pos hl] at h
      exact Except.noConfusion h
    · rw [if_neg hl] at h
      have hnotin : p2p f ∉ m.map Prod.fst := fun hmem =>
        hl ((lookup_isSome_iff m (p2p f)).mpr hmem)
      have hnd2 : ((m ++ [(p2p f, f)]).map Prod.fst).Nodup := by
        rw [List.map_append]
        simp only [List.map_cons, List.map_nil]
        rw [List.nodup_append]
        refine ⟨hnd, List.nodup_singleton _, ?_⟩
        intro a ha hb
        simp only [List.mem_singleton] at hb
        subst hb
        exact hnotin ha
      have := ih (m ++ [(p2p f, f)]) m' hnd2 h
      rw [List.map_append] at this
      simpa [List.append_assoc] using this

/-- Distinct phenotype names make the map build succeed. -/
theorem build_ok_of_nodup (p2p : String → String) :
    ∀ (files : List String) (m : List (String × String)),
      (m.map Prod.fst ++ files.map p2p).Nodup →
      ∃ m', build_phenotype_map p2p files m = .ok m' := by
  intro files
  induction files with
  | nil =>
    intro m _
    exact ⟨m, rfl⟩
  | cons f t ih =>
    intro m hnd
    have hnotin : p2p f ∉ m.map Prod.fst := by
      rw [List.map_cons, List.nodup_append] at hnd
      intro hmem
      exact hnd.2.2 hmem (List.mem_cons_self _ _)
    have hl : ¬ ((m.lookup (p2p f)).isSome = true) := fun hs =>
      hnotin ((lookup_isSome_iff m (p2p f)).mp hs)
    have hnd2 : ((m ++ [(p2p f, f)]).map Prod.fst ++ t.map p2p).Nodup := by
      rw [List.map_append]
      simp only [List.map_cons, List.map_nil]
      rw [List.append_assoc]
      simpa using hnd
    obtain ⟨m', hm'⟩ := ih (m ++ [(p2p f, f)]) hnd2
    refine ⟨m', ?_⟩
    unfold build_phenotype_map
    rw [if_neg hl]
    exact hm'

/-- A projection label with no corresponding phenotype in the map makes the
extraction fail. -/
theorem extract_err_of_missing :
    ∀ (labels : List String) (m : List (String × String)) (lbl : String),
      lbl ∈ labels → lbl ∉ m.map Prod.fst →
      (extract_paths labels m).isOk = false := by
  intro labels
  induction labels with
  | nil =>
    intro m lbl hmem _
    simp at hmem
  | cons x t ih =>
    intro m lbl hmem hnotin
    unfold extract_paths
    cases hx : m.lookup x with
    | none => rfl
    | some path =>
      rcases List.mem_cons.mp hmem with rfl | hmem2
      · exact absurd ((lookup_isSome_iff m lbl).mp (by rw [hx]; rfl)) hnotin
      · have hnotin2 : lbl ∉ (m.filter (fun p => p.1 != x)).map Prod.fst := by
          rw [map_fst_filter_ne]
          intro hmem3
          exact hnotin (List.mem_of_mem_filter hmem3)
        have hrek := ih (m.filter (fun p => p.1 != x)) lbl hmem2 hnotin2
        cases hrec : extract_paths t (m.filter (fun p => p.1 != x)) with
        | error e => rfl
        | ok paths =>
          rw [hrec] at hrek
          exact Bool.noConfusion hrek

/-- Distinct projection labels all present in the map make the extraction
succeed (entries for phenotypes that are no projection label are simply
ignored). -/
theorem extract_ok_of_covered :
    ∀ (labels : List String) (m : List (String × String)),
      labels.Nodup → (∀ lbl ∈ labels, lbl ∈ m.map Prod.fst) →
      (extract_paths labels m).isOk = true := by
  intro labels
  induction labels with
  | nil =>
    intro m _ _
    rfl
  | cons x t ih =>
    intro m hnd hcov
    have hx : (m.lookup x).isSome = true :=
      (lookup_isSome_iff m x).mpr (hcov x (List.mem_cons_self _ _))
    obtain ⟨path, hpath⟩ := Option.isSome_iff_exists.mp hx
    unfold extract_paths
    rw [hpath]
    have hcov2 : ∀ lbl ∈ t, lbl ∈ (m.filter (fun p => p.1 != x)).map Prod.fst := by
      intro lbl hlbl
      rw [map_fst_filter_ne, List.mem_filter]
      refine ⟨hcov lbl (List.mem_cons_of_mem _ hlbl), ?_⟩
      have hne : lbl ≠ x := by
        intro hlx
        subst hlx
        exact (List.nodup_cons.mp hnd).1 hlbl
      simpa using hne
    have hrek := ih (m.filter (fun p => p.1 != x)) (List.nodup_cons.mp hnd).2 hcov2
    cases hrec : extract_paths t (m.filter (fun p => p.1 != x)) with
    | error e =>
      rw [hrec] at hrek
      exact Bool.noConfusion hrek
    | ok paths => rfl

/-- C9, counterexample: the claim says the supplied phenotype sources must
match the matrix labels exactly one-to-one, but a surplus source whose name
matches no label is accepted and silently filtered out: with label list
`["a"]` and sources `["a", "b"]` (identity naming), reconciliation succeeds
and returns only `["a"]`. -/
theorem C9_check_filter_counterexample :
    check_filter_inputs (fun s => s) ["a"] ["a"] ["a", "b"] = .ok ["a"] := rfl

/-- C9, amended: reconciliation fails when the projection and covariance
label sequences differ (ordered equality), when two sources map to the same
phenotype name, or when some projection label has no source; when the labels
agree, the sources map to pairwise distinct names, and every (distinct)
label is covered, it succeeds — surplus sources whose names match no label
are filtered out and ignored rather than rejected, so the matching is
one-to-one only between the labels and the retained sources. -/
theorem C9_check_filter_amended :
    (∀ (p2p : String → String) (pl cl files : List String), pl ≠ cl →
      check_filter_inputs p2p pl cl files =
        .error "Projection and covariance matrices have different labels") ∧
    (∀ (p2p : String → String) (pl cl files : List String),
      ¬ (files.map p2p).Nodup →
      (check_filter_inputs p2p pl cl files).isOk = false) ∧
    (∀ (p2p : String → String) (pl cl files : List String) (lbl : String),
      lbl ∈ pl → lbl ∉ files.map p2p →
      (check_filter_inputs p2p pl cl files).isOk = false) ∧
    (∀ (p2p : String → String) (pl cl files : List String), pl = cl →
      pl.Nodup → (files.map p2p).Nodup → (∀ lbl ∈ pl, lbl ∈ files.map p2p) →
      (check_filter_inputs p2p pl cl files).isOk = true) := by
  refine ⟨?_, ?_, ?_, ?_⟩
  · intro p2p pl cl files h
    unfold check_filter_inputs
    rw [if_pos h]
  · intro p2p pl cl files hdup
    unfold check_filter_inputs
    by_cases heq : pl ≠ cl
    · rw [if_pos heq]
      rfl
    · rw [if_neg heq]
      cases hb : build_phenotype_map p2p files [] with
      | error e => rfl
      | ok m =>
        exfalso
        have hnd := build_ok_nodup p2p files [] m (by simp) hb
        simp only [List.map_nil, List.nil_append] at hnd
        exact hdup hnd
  · intro p2p pl cl files lbl hmem hnotin
    unfold check_filter_inputs
    by_cases heq : pl ≠ cl
    · rw [if_pos heq]
      rfl
    · rw [if_neg heq]
      cases hb : build_phenotype_map p2p files [] with
      | error e => rfl
      | ok m =>
        have hkeys := build_ok_keys p2p files [] m hb
        simp only [List.map_nil, List.nil_append] at hkeys
        exact extract_err_of_missing pl m lbl hmem (by rw [hkeys]; exact hnotin)
  · intro p2p pl cl files heq hplnd hfnd hcov
    unfold check_filter_inputs
    rw [if_neg (not_ne_iff.mpr heq)]
    obtain ⟨m, hb⟩ := build_ok_of_nodup p2p files [] (by simpa using hfnd)
    rw [hb]
    have hkeys := build_ok_keys p2p files [] m hb
    simp only [List.map_nil, List.nil_append] at hkeys
    exact extract_ok_of_covered pl m hplnd (by rw [hkeys]; exact hcov)

/-- C9, witness: the success clause of the amended theorem applied to the
concrete surplus-source instance, exhibiting the filtering behavior. -/
theorem C9_check_filter_amended_witness :
    (check_filter_inputs (fun s => s) ["a"] ["a"] ["a", "b"]).isOk = true :=
  C9_check_filter_amended.2.2.2 (fun s => s) ["a"] ["a"] ["a", "b"] rfl
    (by decide) (by decide) (by decide)

end Igwas
